import Mathlib

/-!
Verification development for the scene-graph / entity-component core of the
TP_BDD repository.  The definitions below are a shallow embedding of the
TypeScript sources:

* `src/Exercice_1/3-ECS/src/entity.ts` — class `Entity` (component list,
  named children, lookup and traversal primitives);
* `src/unnamed/part_000` — the recursive revision of class `Scene`
  (`create`, `setupChildrenRecurse`, the private constructor,
  `construChildrenRecurse`, `findObject`, `findRecurse`, `walk`,
  `walkChildrenRecurse`).

JavaScript string-keyed objects are modelled as insertion-ordered
association lists (`List (String × α)`): assignment `o[k] = v` replaces the
value in place when the key is present and appends otherwise, and `o[k]`
reads the first (unique) entry for `k`.  Asynchronous behaviour (promises)
is modelled by computing, from the code, which pending results a given
aggregate `Promise.all` join actually awaits, and which events the
synchronously-running executor performs in which order.
-/

set_option autoImplicit false

/-- Opaque configuration payload of a component description (the code passes
it through to `setup` unmodified and never inspects it). -/
abbrev Config := Nat

/-- A component instance: its `__type` tag (set by `ComponentFactory.create`)
together with an identity (`id`) distinguishing instances of the same type.
In the code an instance is distinguished by object identity; here `id` is the
index the instance received when it was pushed onto its owner's `components`
array. -/
structure Component where
  type : String
  id : Nat
deriving DecidableEq, Repr

/-- An entity (class `Entity` in entity.ts): an array `components` of
component instances and a string-keyed object `children` of child
entities. -/
inductive Entity : Type where
  | mk : List Component → List (String × Entity) → Entity

/-- The `components` array of an entity. -/
def Entity.components : Entity → List Component
  | .mk cs _ => cs

/-- The `children` map of an entity (insertion-ordered). -/
def Entity.children : Entity → List (String × Entity)
  | .mk _ ch => ch

/-- `new Entity()`: empty components, empty children. -/
def Entity.empty : Entity := .mk [] []

/-- JavaScript object key-presence test (`k in o`). -/
def alistHas {α : Type} (l : List (String × α)) (k : String) : Bool :=
  l.any (fun p => p.1 = k)

/-- JavaScript object read `o[k]` (`undefined` becomes `none`); keys of a
JavaScript object are unique, so the first entry is the entry. -/
def alistGet {α : Type} (l : List (String × α)) (k : String) : Option α :=
  (l.find? (fun p => p.1 = k)).map (fun p => p.2)

/-- JavaScript object assignment `o[k] = v`: replace in place when the key is
present (keeping its position in insertion order), append otherwise. -/
def alistSet {α : Type} (l : List (String × α)) (k : String) (v : α) :
    List (String × α) :=
  if alistHas l k then l.map (fun p => if p.1 = k then (k, v) else p)
  else l ++ [(k, v)]

/-- `Entity.addComponent(type)` (entity.ts lines 41–45): create a bare
component via the factory (which stamps `__type`), push it onto
`components`, and return it.  There is no duplicate check.  The fresh
instance receives the next array index as its identity. -/
def Entity.addComponent (e : Entity) (t : String) : Entity × Component :=
  let c : Component := ⟨t, e.components.length⟩
  (.mk (e.components ++ [c]) e.children, c)

/-- `Entity.getComponent(type)` (entity.ts lines 50–58): start from
`components[0]` (`undefined` when the array is empty), then scan the whole
array, overwriting the candidate on every entry whose `__type` matches; the
result is therefore the last matching component, or `components[0]` when
nothing matched. -/
def Entity.getComponent (e : Entity) (t : String) : Option Component :=
  e.components.foldl (fun acc c => if c.type = t then some c else acc)
    e.components.head?

/-- `Entity.addChild(name, child)` (entity.ts lines 64–66):
`children[name] = child`. -/
def Entity.addChild (e : Entity) (n : String) (child : Entity) : Entity :=
  .mk e.components (alistSet e.children n child)

/-- `Entity.getChild(name)` (entity.ts lines 71–73): `children[name]`,
`undefined` when absent. -/
def Entity.getChild (e : Entity) (n : String) : Option Entity :=
  alistGet e.children n

/-- The list of `__type` tags attached to an entity, in attachment order. -/
def Entity.componentTypes (e : Entity) : List String :=
  e.components.map (fun c => c.type)

theorem getComponent_append_match (cs : List Component) (c : Component)
    (t : String) (h : c.type = t) :
    (Entity.mk (cs ++ [c]) []).getComponent t = some c := by
  simp [Entity.getComponent, Entity.components, List.foldl_append, h]

theorem getComponent_mk (cs : List Component) (ch : List (String × Entity))
    (t : String) :
    (Entity.mk cs ch).getComponent t
      = cs.foldl (fun acc c => if c.type = t then some c else acc) cs.head? :=
  rfl

/-- Claim C9: for every entity `e` and type name `t`, the component instance
returned by `e.addComponent(t)` is exactly what `getComponent(t)` returns on
the resulting entity: the round trip between `addComponent` and
`getComponent` yields the same instance. -/
theorem C9_addComponent_getComponent_roundtrip (e : Entity) (t : String) :
    (e.addComponent t).1.getComponent t = some (e.addComponent t).2 := by
  cases e with
  | mk cs ch =>
    simp [Entity.addComponent, Entity.getComponent, Entity.components,
      Entity.children, List.foldl_append]

/-- Claim C10: when `addComponent(t)` is called a second time with the same
type name `t` (each call appending a new instance), `getComponent(t)` on the
resulting entity returns the most recently added instance — the second one,
which is distinct from the first-added one. -/
theorem C10_getComponent_returns_most_recent (e : Entity) (t : String) :
    ((e.addComponent t).1.addComponent t).1.getComponent t
        = some ((e.addComponent t).1.addComponent t).2
      ∧ ((e.addComponent t).1.addComponent t).2 ≠ (e.addComponent t).2
      ∧ (e.addComponent t).2
          ∈ ((e.addComponent t).1.addComponent t).1.components := by
  cases e with
  | mk cs ch =>
    refine ⟨?_, ?_, ?_⟩
    · simp [Entity.addComponent, Entity.getComponent, Entity.components,
        Entity.children, List.foldl_append]
    · simp [Entity.addComponent, Entity.components, Component.mk.injEq]
    · simp [Entity.addComponent, Entity.components, Entity.children]

/-- Claim C6, counterexample: on an entity already holding a component of
type `"A"`, a second `addComponent("A")` does not fail — it returns a fresh
second instance and the entity ends up holding two components of type
`"A"`. -/
theorem C6_counterexample :
    ((Entity.empty.addComponent "A").1.addComponent "A").1.components
        = [⟨"A", 0⟩, ⟨"A", 1⟩]
      ∧ ((Entity.empty.addComponent "A").1.addComponent "A").2
        = ⟨"A", 1⟩ := by
  constructor <;> rfl

/-- Claim C6 as amended: a second `addComponent(t)` on an entity that already
holds a component of type `t` (here: the entity produced by a first
`addComponent(t)`) does not fail with `DuplicateComponent`; it appends a
second, distinct instance of type `t` while keeping the first instance
stored. -/
theorem C6_amended_duplicate_appends (e : Entity) (t : String) :
    ((e.addComponent t).1.addComponent t).1.components
        = (e.addComponent t).1.components
            ++ [((e.addComponent t).1.addComponent t).2]
      ∧ ((e.addComponent t).1.addComponent t).2.type = t
      ∧ ((e.addComponent t).1.addComponent t).2 ≠ (e.addComponent t).2
      ∧ (e.addComponent t).2 ∈ ((e.addComponent t).1.addComponent t).1.components := by
  cases e with
  | mk cs ch =>
    refine ⟨?_, rfl, ?_, ?_⟩
    · simp [Entity.addComponent, Entity.components, Entity.children]
    · simp [Entity.addComponent, Entity.components, Component.mk.injEq]
    · simp [Entity.addComponent, Entity.components, Entity.children]

/-- Claim C7, counterexample: on an entity holding only a component of type
`"A"`, `getComponent("B")` does not fail with `ComponentNotFound`; it falls
back to `components[0]` and returns the type-`"A"` component. -/
theorem C7_counterexample :
    (Entity.empty.addComponent "A").1.getComponent "B" = some ⟨"A", 0⟩
      ∧ (⟨"A", 0⟩ : Component).type ≠ "B" := by
  constructor
  · rfl
  · simp

/-- Claim C7 as amended: when no component of type `t` is present on `e`,
`getComponent(t)` does not fail with `ComponentNotFound`: it returns the
first stored component regardless of its type (`undefined` only when the
entity holds no components at all). -/
theorem C7_amended_fallback (e : Entity) (t : String)
    (h : ∀ c ∈ e.components, c.type ≠ t) :
    e.getComponent t = e.components.head? := by
  cases e with
  | mk cs ch =>
    simp only [Entity.getComponent, Entity.components] at *
    have aux : ∀ (l : List Component) (init : Option Component),
        (∀ c ∈ l, c.type ≠ t) →
        l.foldl (fun acc c => if c.type = t then some c else acc) init
          = init := by
      intro l
      induction l with
      | nil => intro init _; rfl
      | cons c l ih =>
        intro init hl
        have hc : c.type ≠ t := hl c (by simp)
        simp only [List.foldl_cons, if_neg hc]
        exact ih init (fun x hx => hl x (by simp [hx]))
    exact aux cs cs.head? h

/-- Witness for C7's amended theorem at a concrete input: an entity holding
one component of type `"A"`, queried for type `"B"`. -/
theorem C7_amended_fallback_witness :
    (∀ c ∈ (Entity.empty.addComponent "A").1.components, c.type ≠ "B")
      ∧ (Entity.empty.addComponent "A").1.getComponent "B"
          = (Entity.empty.addComponent "A").1.components.head? :=
  ⟨by decide, C7_amended_fallback (Entity.empty.addComponent "A").1 "B"
    (by decide)⟩

/-! ## Descriptions

`IEntityDesc` / `ISceneDesc` from scene.ts: a description maps entity names
to descriptors; a descriptor holds a component map (type name to
configuration payload) and a child map (child name to nested descriptor). -/

/-- An entity descriptor (`IEntityDesc`): its `components` map and its
`children` map, both insertion-ordered string-keyed objects. -/
inductive EntityDesc : Type where
  | mk : List (String × Config) → List (String × EntityDesc) → EntityDesc

/-- A scene description (`ISceneDesc`): entity name to descriptor. -/
abbrev SceneDesc := List (String × EntityDesc)

/-- The `components` map of a descriptor. -/
def EntityDesc.comps : EntityDesc → List (String × Config)
  | .mk cs _ => cs

/-- The `children` map of a descriptor. -/
def EntityDesc.children : EntityDesc → List (String × EntityDesc)
  | .mk _ ch => ch

/-- The keys of an association list, in order. -/
def alistKeys {α : Type} (l : List (String × α)) : List String :=
  l.map (fun p => p.1)

/-- Key-uniqueness of one association-list level, as a Bool. -/
def nodupKeys {α : Type} (l : List (String × α)) : Bool :=
  (alistKeys l).Nodup

mutual

/-- Well-formedness of a descriptor: at every level the component keys and
the child keys are pairwise distinct.  Descriptions come from parsed JSON
objects, whose keys are unique by construction. -/
def EntityDesc.wf : EntityDesc → Bool
  | .mk cs ch => nodupKeys cs && nodupKeys ch && wfChildren ch

/-- Well-formedness of a children map (see `EntityDesc.wf`). -/
def wfChildren : List (String × EntityDesc) → Bool
  | [] => true
  | (_, d) :: rest => d.wf && wfChildren rest

end

/-- Well-formedness of a whole scene description: unique root names and
well-formed descriptors. -/
def sceneWf (D : SceneDesc) : Bool :=
  nodupKeys D && wfChildren D

/-! ## Scene construction (part_000 lines 90–117) -/

/-- The component-attachment loop `for comp in desc.components:
entity.addComponent(comp)` shared by the Scene constructor and
`construChildrenRecurse` (the returned component is discarded). -/
def attachComponents (e : Entity) : List (String × Config) → Entity
  | [] => e
  | (t, _) :: rest => attachComponents (e.addComponent t).1 rest

mutual

/-- `Scene.construChildrenRecurse(ent)` (part_000 lines 106–117): allocate a
bare entity, attach one component per entry of the descriptor's component
map, then recursively build and attach every child under its declared
name. -/
def construChildrenRecurse : EntityDesc → Entity
  | .mk cs ch => attachChildren (attachComponents Entity.empty cs) ch

/-- The child-attachment loop `for child in ent.children:
entity.addChild(child, construChildrenRecurse(ent.children[child]))`. -/
def attachChildren : Entity → List (String × EntityDesc) → Entity
  | e, [] => e
  | e, (n, d) :: rest =>
    attachChildren (e.addChild n (construChildrenRecurse d)) rest

end

/-- The `Scene` class (part_000): a string-keyed object `scenes` of root
entities. -/
structure Scene where
  scenes : List (String × Entity)

/-- The private `Scene` constructor (part_000 lines 90–102): for every
top-level name, assign `scenes[obj]` a fresh entity, attach its components,
then attach each recursively built child — the per-root recipe is exactly
`construChildrenRecurse` applied to the root's descriptor. -/
def Scene.ofDesc (D : SceneDesc) : Scene :=
  ⟨D.foldl (fun acc p => alistSet acc p.1 (construChildrenRecurse p.2)) []⟩

/-! ## Name lookup (part_000 lines 125–157) -/

mutual

/-- `Scene.findRecurse(objectName, ent)` (part_000 lines 144–157): check the
entity's own children map for the name; if absent, recurse into each child
in insertion order and return the first hit. -/
def findRecurse (n : String) : Entity → Option Entity
  | .mk _ ch =>
    match alistGet ch n with
    | some e => some e
    | none => findInChildren n ch

/-- The loop `for child in ent.children: findRecurse(objectName, ...)`,
returning the first defined result.  `Scene.findObject`'s own loop over the
root entities has the same shape, so it reuses this function. -/
def findInChildren (n : String) : List (String × Entity) → Option Entity
  | [] => none
  | (_, c) :: rest =>
    match findRecurse n c with
    | some e => some e
    | none => findInChildren n rest

end

/-- The failure vocabulary of the scene layer used by these claims. -/
inductive SceneError : Type where
  | ObjectNotFound
deriving DecidableEq, Repr

/-- `Scene.findObject(objectName)` (part_000 lines 125–141): return the root
entity stored under the name when there is one; otherwise search every
root's subtree with `findRecurse` (roots in insertion order) and return the
first hit; throw `ObjectNotFound` when the whole forest has no match. -/
def Scene.findObject (s : Scene) (n : String) : Except SceneError Entity :=
  match alistGet s.scenes n with
  | some e => .ok e
  | none =>
    match findInChildren n s.scenes with
    | some e => .ok e
    | none => .error .ObjectNotFound

mutual

/-- All matches `findRecurse` would encounter below (and at) an entity, in
the order the code's traversal encounters them: first the entity's own child
stored under the name, then, for each child in insertion order, the matches
inside that child's subtree. -/
def dfsMatchesEnt (n : String) : Entity → List Entity
  | .mk _ ch =>
    (match alistGet ch n with
     | some e => [e]
     | none => []) ++ dfsMatchesChildren n ch

/-- `dfsMatchesEnt` mapped over an entity list, concatenated in order. -/
def dfsMatchesChildren (n : String) : List (String × Entity) → List Entity
  | [] => []
  | (_, c) :: rest => dfsMatchesEnt n c ++ dfsMatchesChildren n rest

end

/-- All matches of the whole-scene search, in traversal order. -/
def Scene.dfsMatches (s : Scene) (n : String) : List Entity :=
  dfsMatchesChildren n s.scenes

mutual

/-- Every entity of a subtree: the entity itself followed by all entities of
its children's subtrees, in insertion order. -/
def entForest : Entity → List Entity
  | .mk cs ch => .mk cs ch :: forestOfChildren ch

/-- `entForest` mapped over an entity list, concatenated in order. -/
def forestOfChildren : List (String × Entity) → List Entity
  | [] => []
  | (_, c) :: rest => entForest c ++ forestOfChildren rest

end

/-- Every entity of the scene's forest (roots and all descendants). -/
def Scene.forestEntities (s : Scene) : List Entity :=
  forestOfChildren s.scenes

/-! ## Paths

A path `[n0, n1, ..., nk]` addresses the entity declared at top-level name
`n0`, then child `n1` of it, and so on. -/

/-- Resolve a path inside a description: the descriptor declared there. -/
def descResolve : SceneDesc → List String → Option EntityDesc
  | _, [] => none
  | dl, n :: rest =>
    match alistGet dl n with
    | none => none
    | some d => if rest.isEmpty then some d else descResolve d.children rest

/-- Resolve a path inside a built entity forest. -/
def entResolve : List (String × Entity) → List String → Option Entity
  | _, [] => none
  | l, n :: rest =>
    match alistGet l n with
    | none => none
    | some e => if rest.isEmpty then some e else entResolve e.children rest

/-- Resolve a path against a scene's root map. -/
def Scene.resolvePath (s : Scene) (p : List String) : Option Entity :=
  entResolve s.scenes p

mutual

/-- Every entity name declared strictly inside a descriptor (the names of
its children, at every depth). -/
def namesInDesc : EntityDesc → List String
  | .mk _ ch => namesInChildren ch

/-- Every entity name declared anywhere in a children map (the names of
all entries at this level and, recursively, below them). -/
def namesInChildren : List (String × EntityDesc) → List String
  | [] => []
  | (n, d) :: rest => n :: (namesInDesc d ++ namesInChildren rest)

end

/-- Every entity name appearing anywhere in a description (top-level or
nested at any depth). -/
def declaredNames (D : SceneDesc) : List String :=
  namesInChildren D

/-! ## The configuration pass (part_000 lines 44–87)

`Scene.create` builds the scene, assigns `Scene.current`, then issues every
component's `setup`.  A `setup` call is identified by the path of the entity
that owns the component, the component's type name, and the payload passed.
The promises actually placed in `create`'s `setupPromises` array — the only
ones its final `Promise.all` awaits — are the top-level components' setup
results plus, per direct child of a root, the promise returned by
`setupChildrenRecurse`. -/

/-- One `setup(...)` call: owner path, component type, payload. -/
structure SetupCall where
  path : List String
  compType : String
  cfg : Config
deriving DecidableEq, Repr

mutual

/-- Every setup call issued for the entity at `path` described by a
descriptor and for its whole subtree, in issue order: the descriptor's own
components first (`create` / `setupChildrenRecurse` component loop), then
each child's subtree (`setupChildrenRecurse` recursion). -/
def issuedInDesc (path : List String) : EntityDesc → List SetupCall
  | .mk cs ch => cs.map (fun q => ⟨path, q.1, q.2⟩) ++ issuedInChildren path ch

/-- `issuedInDesc` over a children map (each child extends the path by its
name), concatenated in insertion order. -/
def issuedInChildren (path : List String) :
    List (String × EntityDesc) → List SetupCall
  | [] => []
  | (n, d) :: rest => issuedInDesc (path ++ [n]) d ++ issuedInChildren path rest

end

/-- Every setup call `Scene.create(D)` issues, at every depth, in issue
order. -/
def setupsIssued (D : SceneDesc) : List SetupCall :=
  issuedInChildren [] D

/-- A promise pushed into `create`'s `setupPromises` array: either the
result of a top-level component's `setup`, or the promise returned by
`setupChildrenRecurse` for a direct child of a root. -/
inductive PendingItem : Type where
  | setupResult : SetupCall → PendingItem
  | childWrapper : String → String → PendingItem
deriving DecidableEq, Repr

/-- The contents of `create`'s `setupPromises` array (part_000 lines 52–62):
for each root in order, the setup results of the root's own components, then
one `setupChildrenRecurse` wrapper per direct child. -/
def createSetupPromises (D : SceneDesc) : List PendingItem :=
  D.flatMap (fun p =>
    p.2.comps.map (fun q => PendingItem.setupResult ⟨[p.1], q.1, q.2⟩)
      ++ p.2.children.map (fun c => PendingItem.childWrapper p.1 c.1))

/-- The setup results a pushed promise transitively awaits.  A top-level
setup result awaits itself.  A `setupChildrenRecurse` wrapper awaits
nothing: the function issues the child's component setups and the deeper
recursive calls but never pushes any of them into its local `setupPromises`
array (part_000 lines 71–87), so it awaits `Promise.all` of an empty array
and resolves at once. -/
def PendingItem.joins : PendingItem → List SetupCall
  | .setupResult c => [c]
  | .childWrapper _ _ => []

/-- The setup results whose completion gates the promise returned by
`Scene.create(D)`: the union of what every pushed promise awaits. -/
def setupsJoined (D : SceneDesc) : List SetupCall :=
  (createSetupPromises D).flatMap PendingItem.joins

/-! ## Build outcome under failing setups (claim C4)

The behaviour of one `setup` call is one of: return synchronously (or a
promise that resolves), throw synchronously, or return a promise that
rejects.  The outcome of `create`'s promise follows from the code:

* the executor runs synchronously; a synchronous throw from a *top-level*
  component's setup escapes the executor, so the `Promise` constructor
  rejects `create`'s promise;
* a synchronous throw from a *depth-1* component's setup escapes
  `setupChildrenRecurse`'s executor instead, rejecting the wrapper promise
  (which `create` awaits); a synchronous throw at depth ≥ 2 rejects an inner
  wrapper that nobody awaits;
* when `Promise.all(setupPromises)` rejects (a top-level setup result
  rejected, or a wrapper rejected), `create` attached only a fulfilment
  handler (`.then(function () { resolve(...) })`, no rejection handler and
  `reject` is never called), so `create`'s promise never settles;
* otherwise every awaited promise resolves and `create`'s promise
  resolves. -/

/-- Behaviour of one `setup` call. -/
inductive SetupBeh : Type where
  | sync
  | syncThrow
  | asyncOk
  | asyncFail
deriving DecidableEq, Repr

/-- How `create(D)`'s returned promise ends up. -/
inductive BuildOutcome : Type where
  | resolved
  | rejected
  | stuck
deriving DecidableEq, Repr

/-- The component calls of the top level (root entities), with payloads. -/
def rootCompCalls (D : SceneDesc) : List (String × Config) :=
  D.flatMap (fun p => p.2.comps)

/-- Does some top-level component's setup throw synchronously (escaping
`create`'s executor)? -/
def anyRootThrow (beh : String → Config → SetupBeh) (D : SceneDesc) : Bool :=
  (rootCompCalls D).any (fun q => beh q.1 q.2 == .syncThrow)

/-- Does the `setupChildrenRecurse` wrapper promise for a given child
descriptor reject?  It does exactly when one of the child's own components
throws synchronously inside the wrapper's executor. -/
def wrapperRejects (beh : String → Config → SetupBeh) (d : EntityDesc) :
    Bool :=
  d.comps.any (fun q => beh q.1 q.2 == .syncThrow)

/-- Does some promise awaited by `create`'s `Promise.all` reject?  Either a
top-level component's setup result rejects asynchronously, or some root's
direct-child wrapper rejects. -/
def anyJoinedRejects (beh : String → Config → SetupBeh) (D : SceneDesc) :
    Bool :=
  (rootCompCalls D).any (fun q => beh q.1 q.2 == .asyncFail)
    || D.any (fun p => p.2.children.any (fun c => wrapperRejects beh c.2))

/-- The outcome of the promise returned by `Scene.create(D)` when each
component's setup behaves as `beh` prescribes. -/
def buildOutcome (beh : String → Config → SetupBeh) (D : SceneDesc) :
    BuildOutcome :=
  if anyRootThrow beh D then .rejected
  else if anyJoinedRejects beh D then .stuck
  else .resolved

/-- The process-wide `Scene.current` after `Scene.create(D)` ran (however
its promise ends up): the executor assigns the newly built scene
unconditionally before issuing any setup, and nothing ever restores the
previous value. -/
def currentAfterCreate (_prev : Option Scene) (D : SceneDesc) : Option Scene :=
  some (Scene.ofDesc D)

/-! ## The executor's event order (claim C8) -/

/-- An observable step of `create`'s synchronously-running executor. -/
inductive CreateEvent : Type where
  | assignCurrent : Scene → CreateEvent
  | issueSetup : SetupCall → CreateEvent

/-- The executor's steps in order (part_000 lines 48–62): build the whole
scene (`new Scene(description)`), assign `Scene.current`, then issue every
setup — the top-level ones directly and the deeper ones synchronously inside
the `setupChildrenRecurse` calls. -/
def createEvents (D : SceneDesc) : List CreateEvent :=
  .assignCurrent (Scene.ofDesc D) :: (setupsIssued D).map .issueSetup

/-- Replay a list of executor events over the `Scene.current` cell, pairing
every issued setup with the value of `Scene.current` it observes. -/
def observedCurrent : List CreateEvent → Option Scene →
    List (SetupCall × Option Scene)
  | [], _ => []
  | .assignCurrent s :: rest, _ => observedCurrent rest (some s)
  | .issueSetup c :: rest, cur => (c, cur) :: observedCurrent rest cur

/-! ## Walk (part_000 lines 163–202)

`walk(fn)` applies `fn` to every node.  Per root, the promise pushed into
`promises` calls `resolve` from the completion handler of `fn(root)` *and*
from the completion handler of each direct child's `walkChildrenRecurse`
promise — whichever completes first resolves it (later calls are no-ops).
`walkChildrenRecurse(child)` resolves when `fn(child)` completes; the
promises of its deeper recursive calls are discarded.  So walk's returned
promise resolves exactly when, for every root, at least one visitor result
among the root's own and its direct children's has completed. -/

mutual

/-- The nodes visited below (and at) an entity, identified by path, in
application order: `fn` is applied to the node, then to each child subtree
in insertion order (`walkChildrenRecurse`). -/
def walkVisitEnt (path : List String) : Entity → List (List String)
  | .mk _ ch => path :: walkVisitList path ch

/-- `walkVisitEnt` over an entity list (each child extends the path). -/
def walkVisitList (path : List String) :
    List (String × Entity) → List (List String)
  | [] => []
  | (n, c) :: rest => walkVisitEnt (path ++ [n]) c ++ walkVisitList path rest

end

/-- Every node `walk` applies the visitor to, by path, in application
order. -/
def Scene.walkVisitPaths (s : Scene) : List (List String) :=
  walkVisitList [] s.scenes

/-- Whether the promise returned by `walk` has resolved, given the set
`completedFns` of nodes (by path) whose visitor results have completed:
each root's pushed promise must have been resolved, i.e. the root's own
visitor or one of its direct children's visitors completed. -/
def walkResolved (s : Scene) (completedFns : List (List String)) : Bool :=
  s.scenes.all (fun p =>
    completedFns.contains [p.1]
      || (p.2).children.any (fun c => completedFns.contains [p.1, c.1]))

/-! ## Association-list lemmas -/

theorem alistGet_cons {α : Type} (k : String) (v : α) (l : List (String × α))
    (n : String) :
    alistGet ((k, v) :: l) n = if k = n then some v else alistGet l n := by
  by_cases h : k = n <;> simp [alistGet, List.find?_cons, h]

theorem alistGet_nil {α : Type} (n : String) :
    alistGet ([] : List (String × α)) n = none := rfl

theorem alistGet_map {α β : Type} (f : α → β) :
    ∀ (l : List (String × α)) (n : String),
    alistGet (l.map (fun p => (p.1, f p.2))) n = (alistGet l n).map f := by
  intro l n
  induction l with
  | nil => rfl
  | cons p rest ih =>
    cases p with
    | mk k v =>
      by_cases h : k = n <;>
        simp [alistGet_cons, h, ih]

theorem alistGet_eq_none_iff {α : Type} (l : List (String × α)) (n : String) :
    alistGet l n = none ↔ alistHas l n = false := by
  simp [alistGet, alistHas, List.find?_eq_none, List.any_eq_false]

theorem alistHas_append {α : Type} (l l' : List (String × α)) (n : String) :
    alistHas (l ++ l') n = (alistHas l n || alistHas l' n) := by
  simp [alistHas, List.any_append]

theorem alistSet_of_not_has {α : Type} (l : List (String × α)) (k : String)
    (v : α) (h : alistHas l k = false) :
    alistSet l k v = l ++ [(k, v)] := by
  simp [alistSet, h]

/-! ## The shape of the built forest -/

/-- The association list obtained by building every descriptor of a
children map, keeping names and order.  For well-formed descriptions this is
what the construction loops produce. -/
def builtList (dl : List (String × EntityDesc)) : List (String × Entity) :=
  dl.map (fun p => (p.1, construChildrenRecurse p.2))

theorem foldl_alistSet_eq_append {α β : Type} (f : α → β) :
    ∀ (dl : List (String × α)) (acc : List (String × β)),
    nodupKeys dl = true → (∀ k ∈ alistKeys dl, alistHas acc k = false) →
    dl.foldl (fun acc p => alistSet acc p.1 (f p.2)) acc
      = acc ++ dl.map (fun p => (p.1, f p.2)) := by
  intro dl
  induction dl with
  | nil => intro acc _ _; simp
  | cons p rest ih =>
    intro acc hnd hfresh
    cases p with
    | mk k a =>
      have hk : alistHas acc k = false := hfresh k (by simp [alistKeys])
      have hnd' : nodupKeys rest = true := by
        simp [nodupKeys, alistKeys] at hnd ⊢
        exact hnd.2
      have hknotin : k ∉ alistKeys rest := by
        simp [nodupKeys, alistKeys] at hnd
        simpa [alistKeys] using hnd.1
      have hfresh' : ∀ k' ∈ alistKeys rest,
          alistHas (acc ++ [(k, f a)]) k' = false := by
        intro k' hk'
        rw [alistHas_append]
        have h1 : alistHas acc k' = false := hfresh k' (by
          simp only [alistKeys, List.map_cons]
          exact List.mem_cons_of_mem _ hk')
        have h2 : alistHas [(k, f a)] k' = false := by
          simp [alistHas]
          intro hkk'
          exact absurd (hkk' ▸ hk') hknotin
        simp [h1, h2]
      simp only [List.foldl_cons, alistSet_of_not_has acc k (f a) hk]
      rw [ih (acc ++ [(k, f a)]) hnd' hfresh']
      simp

theorem attachComponents_children :
    ∀ (cs : List (String × Config)) (e : Entity),
    (attachComponents e cs).children = e.children := by
  intro cs
  induction cs with
  | nil => intro e; rfl
  | cons q rest ih =>
    intro e
    cases q with
    | mk t c =>
      cases e with
      | mk ecs ech =>
        simpa [attachComponents, Entity.addComponent, Entity.children,
          Entity.components] using ih _

theorem attachComponents_componentTypes :
    ∀ (cs : List (String × Config)) (e : Entity),
    (attachComponents e cs).componentTypes
      = e.componentTypes ++ cs.map (fun q => q.1) := by
  intro cs
  induction cs with
  | nil => intro e; simp [attachComponents]
  | cons q rest ih =>
    intro e
    cases q with
    | mk t c =>
      cases e with
      | mk ecs ech =>
        rw [attachComponents, ih]
        simp [Entity.addComponent, Entity.componentTypes, Entity.components,
          Entity.children]

theorem attachChildren_components :
    ∀ (l : List (String × EntityDesc)) (e : Entity),
    (attachChildren e l).components = e.components := by
  intro l
  induction l with
  | nil => intro e; rfl
  | cons p rest ih =>
    intro e
    cases p with
    | mk n d =>
      cases e with
      | mk ecs ech =>
        simpa [attachChildren, Entity.addChild, Entity.components,
          Entity.children] using ih _

theorem attachChildren_children :
    ∀ (l : List (String × EntityDesc)) (e : Entity),
    (attachChildren e l).children
      = l.foldl (fun acc p => alistSet acc p.1 (construChildrenRecurse p.2))
          e.children := by
  intro l
  induction l with
  | nil => intro e; rfl
  | cons p rest ih =>
    intro e
    cases p with
    | mk n d =>
      cases e with
      | mk ecs ech =>
        rw [attachChildren, ih]
        simp [Entity.addChild, Entity.children]

theorem construChildrenRecurse_componentTypes (d : EntityDesc) :
    (construChildrenRecurse d).componentTypes = d.comps.map (fun q => q.1) := by
  cases d with
  | mk cs ch =>
    rw [construChildrenRecurse]
    have h1 := attachChildren_components ch (attachComponents Entity.empty cs)
    have h2 := attachComponents_componentTypes cs Entity.empty
    simp only [Entity.componentTypes] at h2 ⊢
    rw [h1]
    simpa [Entity.empty, Entity.components, EntityDesc.comps] using h2

theorem construChildrenRecurse_children (d : EntityDesc)
    (h : d.wf = true) :
    (construChildrenRecurse d).children = builtList d.children := by
  cases d with
  | mk cs ch =>
    rw [construChildrenRecurse, attachChildren_children,
      attachComponents_children]
    have hch : nodupKeys ch = true := by
      simp [EntityDesc.wf] at h
      exact h.1.2
    have := foldl_alistSet_eq_append construChildrenRecurse ch [] hch
      (by intro k _; rfl)
    simpa [Entity.empty, Entity.children, EntityDesc.children, builtList]
      using this

theorem Scene.ofDesc_scenes (D : SceneDesc) (h : nodupKeys D = true) :
    (Scene.ofDesc D).scenes = builtList D := by
  have := foldl_alistSet_eq_append construChildrenRecurse D [] h
    (by intro k _; rfl)
  simpa [Scene.ofDesc, builtList] using this

/-! ## Well-formedness propagation -/

theorem wf_of_alistGet :
    ∀ (dl : List (String × EntityDesc)) (n : String) (d : EntityDesc),
    wfChildren dl = true → alistGet dl n = some d → d.wf = true := by
  intro dl
  induction dl with
  | nil => intro n d _ hget; simp [alistGet] at hget
  | cons p rest ih =>
    intro n d hwf hget
    cases p with
    | mk k d' =>
      rw [wfChildren] at hwf
      simp only [Bool.and_eq_true] at hwf
      rw [alistGet_cons] at hget
      by_cases hk : k = n
      · rw [if_pos hk] at hget
        cases hget
        exact hwf.1
      · rw [if_neg hk] at hget
        exact ih n d hwf.2 hget

theorem wf_children_of_wf (d : EntityDesc) (h : d.wf = true) :
    wfChildren d.children = true := by
  cases d with
  | mk cs ch =>
    simp [EntityDesc.wf] at h
    simpa [EntityDesc.children] using h.2

/-! ## Path resolution against the built forest -/

theorem entResolve_builtList :
    ∀ (p : List String) (dl : List (String × EntityDesc)),
    wfChildren dl = true → ∀ d, descResolve dl p = some d →
    entResolve (builtList dl) p = some (construChildrenRecurse d) := by
  intro p
  induction p with
  | nil => intro dl _ d h; simp [descResolve] at h
  | cons n rest ih =>
    intro dl hwf d h
    rw [descResolve] at h
    rw [entResolve]
    cases hget : alistGet dl n with
    | none => rw [hget] at h; simp at h
    | some d' =>
      rw [hget] at h
      have hbuilt : alistGet (builtList dl) n
          = some (construChildrenRecurse d') := by
        rw [builtList, alistGet_map, hget]; rfl
      rw [hbuilt]
      cases rest with
      | nil =>
        simp only [List.isEmpty_nil, if_pos] at h ⊢
        cases h
        rfl
      | cons m rest' =>
        simp only [List.isEmpty_cons, Bool.false_eq_true, if_neg] at h ⊢
        have hwf' : d'.wf = true := wf_of_alistGet dl n d' hwf hget
        rw [construChildrenRecurse_children d' hwf']
        exact ih d'.children (wf_children_of_wf d' hwf') d h

/-- Claim C1: for every well-formed description `D`, `build(D)` instantiates
the full forest to the depth described: whatever descriptor `D` declares at
a path (top-level or nested at any depth) yields, in the built scene, an
entity at that same path — reachable from its parent via the declared child
name — carrying exactly the declared component types.  Construction is not
limited to one level of children. -/
theorem C1_full_depth_construction (D : SceneDesc) (h : sceneWf D = true)
    (p : List String) (d : EntityDesc) (hres : descResolve D p = some d) :
    ((Scene.ofDesc D).resolvePath p).map Entity.componentTypes
      = some (d.comps.map (fun q => q.1)) := by
  have hnd : nodupKeys D = true := by
    simp [sceneWf] at h; exact h.1
  have hwfc : wfChildren D = true := by
    simp [sceneWf] at h; exact h.2
  rw [Scene.resolvePath, Scene.ofDesc_scenes D hnd,
    entResolve_builtList p D hwfc d hres]
  simp [construChildrenRecurse_componentTypes]

/-- Witness for C1 at the spec's end-to-end scenario (root `A` with a `Pos`
component and a nested child `B` with its own `Pos` component): the entity
at path `A/B` exists in the built scene with component types `["Pos"]`. -/
theorem C1_full_depth_construction_witness :
    sceneWf [("A", .mk [("Pos", 0)] [("B", .mk [("Pos", 1)] [])])] = true
      ∧ descResolve [("A", .mk [("Pos", 0)] [("B", .mk [("Pos", 1)] [])])]
          ["A", "B"] = some (.mk [("Pos", 1)] [])
      ∧ ((Scene.ofDesc
            [("A", .mk [("Pos", 0)] [("B", .mk [("Pos", 1)] [])])]).resolvePath
          ["A", "B"]).map Entity.componentTypes = some ["Pos"] :=
  ⟨by decide, rfl,
    C1_full_depth_construction
      [("A", .mk [("Pos", 0)] [("B", .mk [("Pos", 1)] [])])] (by decide)
      ["A", "B"] (.mk [("Pos", 1)] []) rfl⟩

/-! ## The search order of findObject -/

mutual

theorem findRecurse_eq_head :
    ∀ (n : String) (e : Entity),
    findRecurse n e = (dfsMatchesEnt n e).head?
  | n, .mk cs ch => by
    rw [findRecurse, dfsMatchesEnt]
    cases hget : alistGet ch n with
    | some e => simp
    | none => simp [findInChildren_eq_head n ch]

theorem findInChildren_eq_head :
    ∀ (n : String) (l : List (String × Entity)),
    findInChildren n l = (dfsMatchesChildren n l).head?
  | n, [] => rfl
  | n, (m, c) :: rest => by
    rw [findInChildren, dfsMatchesChildren, findRecurse_eq_head n c]
    cases hm : dfsMatchesEnt n c with
    | nil => simp [findInChildren_eq_head n rest]
    | cons x xs => simp

end

mutual

theorem dfsMatchesEnt_eq_nil_iff :
    ∀ (n : String) (e : Entity),
    dfsMatchesEnt n e = [] ↔ ∀ x ∈ entForest e, x.getChild n = none
  | n, .mk cs ch => by
    rw [dfsMatchesEnt, entForest]
    rw [List.append_eq_nil]
    constructor
    · intro h x hx
      rcases List.mem_cons.mp hx with hx | hx
      · subst hx
        cases hget : alistGet ch n with
        | some e => rw [hget] at h; simp at h
        | none => simp [Entity.getChild, Entity.children, hget]
      · exact ((dfsMatchesChildren_eq_nil_iff n ch).mp h.2) x hx
    · intro h
      constructor
      · have := h (.mk cs ch) (List.mem_cons_self _ _)
        simp [Entity.getChild, Entity.children] at this
        simp [this]
      · exact (dfsMatchesChildren_eq_nil_iff n ch).mpr
          (fun x hx => h x (List.mem_cons_of_mem _ hx))

theorem dfsMatchesChildren_eq_nil_iff :
    ∀ (n : String) (l : List (String × Entity)),
    dfsMatchesChildren n l = [] ↔ ∀ x ∈ forestOfChildren l, x.getChild n = none
  | n, [] => by simp [dfsMatchesChildren, forestOfChildren]
  | n, (m, c) :: rest => by
    rw [dfsMatchesChildren, forestOfChildren, List.append_eq_nil]
    rw [dfsMatchesEnt_eq_nil_iff n c, dfsMatchesChildren_eq_nil_iff n rest]
    constructor
    · intro h x hx
      rcases List.mem_append.mp hx with hx | hx
      · exact h.1 x hx
      · exact h.2 x hx
    · intro h
      exact ⟨fun x hx => h x (List.mem_append.mpr (Or.inl hx)),
        fun x hx => h x (List.mem_append.mpr (Or.inr hx))⟩

end

/-- Claim C3: `findObject(n)` first checks the root entities by name; when
the name is not a root name, it performs the recursive search over every
root's subtree (roots in insertion order, each entity's own children checked
before recursing into them in insertion order, at every depth) and returns
the first entity stored under child key `n` in that traversal order
(`Scene.dfsMatches` lists the matches in traversal order); and it fails with
`ObjectNotFound` exactly when the name is not a root name and no entity
anywhere in the forest has a child stored under key `n`. -/
theorem C3_findObject_search (s : Scene) (n : String) :
    s.findObject n
        = (match alistGet s.scenes n with
           | some e => .ok e
           | none =>
             match (s.dfsMatches n).head? with
             | some e => .ok e
             | none => .error .ObjectNotFound)
      ∧ (s.findObject n = .error .ObjectNotFound ↔
          alistGet s.scenes n = none
            ∧ ∀ x ∈ s.forestEntities, x.getChild n = none) := by
  have heq : s.findObject n
      = (match alistGet s.scenes n with
         | some e => .ok e
         | none =>
           match (s.dfsMatches n).head? with
           | some e => .ok e
           | none => .error .ObjectNotFound) := by
    rw [Scene.findObject, Scene.dfsMatches, findInChildren_eq_head]
  refine ⟨heq, ?_⟩
  rw [heq]
  cases hget : alistGet s.scenes n with
  | some e => simp
  | none =>
    simp only []
    cases hm : (Scene.dfsMatches s n).head? with
    | some e =>
      simp only []
      constructor
      · intro h; cases h
      · intro h
        have : Scene.dfsMatches s n = [] :=
          (dfsMatchesChildren_eq_nil_iff n s.scenes).mpr h.2
        rw [this] at hm
        cases hm
    | none =>
      have hnil : Scene.dfsMatches s n = [] := List.head?_eq_none_iff.mp hm
      have hall := (dfsMatchesChildren_eq_nil_iff n s.scenes).mp hnil
      simp only [Scene.forestEntities]
      constructor
      · intro _
        exact ⟨trivial, hall⟩
      · intro _
        trivial

/-! ## Every declared name is findable -/

/-- Whether a lookup result resolved with an entity (as opposed to failing). -/
def resolves : Except SceneError Entity → Bool
  | .ok _ => true
  | .error _ => false

theorem self_mem_entForest : ∀ e : Entity, e ∈ entForest e
  | .mk cs ch => by
    rw [entForest]
    exact List.mem_cons_self _ _

theorem mem_entForest_of_mem_children_forest :
    ∀ (e x : Entity), x ∈ forestOfChildren e.children → x ∈ entForest e
  | .mk cs ch, x => by
    rw [entForest, Entity.children]
    exact fun h => List.mem_cons_of_mem _ h

theorem namesFindable :
    ∀ (dl : List (String × EntityDesc)),
    wfChildren dl = true → ∀ n, n ∈ namesInChildren dl →
    alistHas (builtList dl) n = true
      ∨ ∃ e ∈ forestOfChildren (builtList dl), e.getChild n ≠ none
  | [] => by
    intro _ n hn
    simp [namesInChildren] at hn
  | (k, .mk cs ch) :: rest => by
    intro hwf n hn
    have hwfd : (EntityDesc.mk cs ch).wf = true := by
      rw [wfChildren] at hwf
      simp only [Bool.and_eq_true] at hwf
      exact hwf.1
    have hwfrest : wfChildren rest = true := by
      rw [wfChildren] at hwf
      simp only [Bool.and_eq_true] at hwf
      exact hwf.2
    have hwfch : wfChildren ch = true := by
      have := wf_children_of_wf _ hwfd
      simpa [EntityDesc.children] using this
    have hbuilt : builtList ((k, EntityDesc.mk cs ch) :: rest)
        = (k, construChildrenRecurse (.mk cs ch)) :: builtList rest := rfl
    rw [namesInChildren, namesInDesc] at hn
    rcases List.mem_cons.mp hn with hn | hn
    · subst hn
      left
      simp [hbuilt, alistHas]
    · rcases List.mem_append.mp hn with hn | hn
      · have hech : (construChildrenRecurse (.mk cs ch)).children
            = builtList ch := by
          have := construChildrenRecurse_children _ hwfd
          simpa [EntityDesc.children] using this
        rcases namesFindable ch hwfch n hn with hhas | ⟨e, he, hchild⟩
        · right
          refine ⟨construChildrenRecurse (.mk cs ch), ?_, ?_⟩
          · rw [hbuilt, forestOfChildren]
            exact List.mem_append.mpr (Or.inl (self_mem_entForest _))
          · rw [Entity.getChild, hech]
            intro hnone
            rw [(alistGet_eq_none_iff _ _).mp hnone] at hhas
            cases hhas
        · right
          refine ⟨e, ?_, hchild⟩
          rw [hbuilt, forestOfChildren]
          refine List.mem_append.mpr (Or.inl ?_)
          refine mem_entForest_of_mem_children_forest _ e ?_
          rw [hech]
          exact he
      · rcases namesFindable rest hwfrest n hn with hhas | ⟨e, he, hchild⟩
        · left
          rw [hbuilt]
          rw [alistHas] at hhas ⊢
          simp only [List.any_cons, Bool.or_eq_true]
          exact Or.inr hhas
        · right
          refine ⟨e, ?_, hchild⟩
          rw [hbuilt, forestOfChildren]
          exact List.mem_append.mpr (Or.inr he)

/-- Claim C8: during every build, `Scene.current` is assigned the fully
constructed Scene before any setup is issued — replaying `create`'s executor
events shows every issued setup observes the new Scene, whatever was active
before — and on that Scene `findObject` resolves every entity name declared
anywhere in the description, so a lookup made from inside any component's
setup can find any entity of the tree. -/
theorem C8_current_set_before_setups (prev : Option Scene) (D : SceneDesc)
    (h : sceneWf D = true) (n : String) (hn : n ∈ declaredNames D) :
    observedCurrent (createEvents D) prev
        = (setupsIssued D).map (fun c => (c, some (Scene.ofDesc D)))
      ∧ resolves ((Scene.ofDesc D).findObject n) = true := by
  constructor
  · rw [createEvents, observedCurrent]
    have replay : ∀ (l : List SetupCall) (cur : Option Scene),
        observedCurrent (l.map CreateEvent.issueSetup) cur
          = l.map (fun c => (c, cur)) := by
      intro l
      induction l with
      | nil => intro cur; rfl
      | cons c rest ih =>
        intro cur
        rw [List.map_cons, observedCurrent, ih, List.map_cons]
    exact replay (setupsIssued D) (some (Scene.ofDesc D))
  · have hnd : nodupKeys D = true := by
      simp [sceneWf] at h; exact h.1
    have hwfc : wfChildren D = true := by
      simp [sceneWf] at h; exact h.2
    rw [Scene.findObject, Scene.ofDesc_scenes D hnd]
    cases hget : alistGet (builtList D) n with
    | some e => rfl
    | none =>
      rcases namesFindable D hwfc n hn with hhas | ⟨e, he, hchild⟩
      · rw [(alistGet_eq_none_iff _ _).mp hget] at hhas
        cases hhas
      · cases hfind : findInChildren n (builtList D) with
        | some e' => rfl
        | none =>
          rw [findInChildren_eq_head] at hfind
          have hnil : dfsMatchesChildren n (builtList D) = [] :=
            List.head?_eq_none_iff.mp hfind
          have := (dfsMatchesChildren_eq_nil_iff n (builtList D)).mp hnil e he
          exact absurd this hchild

/-- Witness for C8 at the spec's end-to-end scenario, with no previously
active scene and the nested name `B`. -/
theorem C8_current_set_before_setups_witness :
    sceneWf [("A", .mk [("Pos", 0)] [("B", .mk [("Pos", 1)] [])])] = true
      ∧ "B" ∈ declaredNames
          [("A", .mk [("Pos", 0)] [("B", .mk [("Pos", 1)] [])])]
      ∧ (observedCurrent
            (createEvents [("A", .mk [("Pos", 0)] [("B", .mk [("Pos", 1)] [])])])
            none
          = (setupsIssued [("A", .mk [("Pos", 0)] [("B", .mk [("Pos", 1)] [])])]).map
              (fun c => (c, some (Scene.ofDesc
                [("A", .mk [("Pos", 0)] [("B", .mk [("Pos", 1)] [])])])))
        ∧ resolves ((Scene.ofDesc
            [("A", .mk [("Pos", 0)] [("B", .mk [("Pos", 1)] [])])]).findObject
            "B") = true) :=
  ⟨by decide, by decide,
    C8_current_set_before_setups none
      [("A", .mk [("Pos", 0)] [("B", .mk [("Pos", 1)] [])])] (by decide)
      "B" (by decide)⟩

/-! ## The defects in the configuration join, failure handling and walk -/

/-- Claim C2, failing evaluation: for the description with root `A` whose
child `B` carries component `C`, the build issues `C`'s setup (at depth 1),
yet the set of setup results whose completion gates `create`'s promise is
empty — `setupChildrenRecurse` issues its setups but never pushes them (nor
its recursive calls) into the array it awaits, so the aggregate join omits
every setup below the top level and the build can complete while `C`'s setup
is still pending. -/
theorem C2_child_setups_not_joined :
    setupsIssued [("A", EntityDesc.mk [] [("B", .mk [("C", 7)] [])])]
        = [⟨["A", "B"], "C", 7⟩]
      ∧ setupsJoined [("A", EntityDesc.mk [] [("B", .mk [("C", 7)] [])])]
        = [] :=
  ⟨rfl, rfl⟩

/-- Claim C4, failing evaluation: for the description with a single root `A`
carrying one component `C` whose setup rejects asynchronously, the promise
returned by `create` neither resolves nor rejects — `Promise.all`'s
rejection has no handler and the executor's `reject` is never invoked, so
the failure is not propagated and the build is left pending forever — and
`Scene.current` is the newly built scene, not the previously active (empty)
one: the assignment happens before the setups and is never rolled back. -/
theorem C4_failed_setup_hangs_and_replaces_scene :
    buildOutcome (fun _ _ => .asyncFail)
        [("A", EntityDesc.mk [("C", 0)] [])] = .stuck
      ∧ currentAfterCreate (some (Scene.ofDesc []))
            [("A", EntityDesc.mk [("C", 0)] [])]
          = some (Scene.ofDesc [("A", EntityDesc.mk [("C", 0)] [])])
      ∧ currentAfterCreate (some (Scene.ofDesc []))
            [("A", EntityDesc.mk [("C", 0)] [])]
          ≠ some (Scene.ofDesc ([] : SceneDesc)) := by
  refine ⟨rfl, rfl, ?_⟩
  intro h
  have h2 : Scene.ofDesc [("A", EntityDesc.mk [("C", 0)] [])]
      = Scene.ofDesc ([] : SceneDesc) := Option.some.inj h
  exact absurd (congrArg (fun s => s.scenes.length) h2) (by decide)

/-- Claim C5, failing evaluation: for the three-level description
`A → B → C`, `walk` applies the visitor to all three nodes, but its promise
is already resolved in the state where only `B`'s visitor result has
completed: each root's pushed promise is resolved by the first completion
among the root's own visitor and its direct children's, and the deeper
recursive promises are never awaited — so walk's completion does not wait
for the visitor results of the visited nodes `A` and `A/B/C`. -/
theorem C5_walk_resolves_before_all_visits_complete :
    (Scene.ofDesc
        [("A", EntityDesc.mk [] [("B", .mk [] [("C", .mk [] [])])])]).walkVisitPaths
        = [["A"], ["A", "B"], ["A", "B", "C"]]
      ∧ walkResolved
          (Scene.ofDesc
            [("A", EntityDesc.mk [] [("B", .mk [] [("C", .mk [] [])])])])
          [["A", "B"]] = true
      ∧ (["A"] : List String) ∉ [(["A", "B"] : List String)]
      ∧ (["A", "B", "C"] : List String) ∉ [(["A", "B"] : List String)] :=
  ⟨rfl, rfl, by decide, by decide⟩
